import Mathlib

/-!
Verification of the day-ahead electricity-price posting script (`post.py`).

Strings are modelled as `List Char`; Python floats and exact `statistics.mean`
arithmetic are modelled as `ℚ`; network calls, the state file and the current
time are modelled by an explicit environment record, and the script's control
flow as pure functions returning an explicit outcome trace.
-/

attribute [local semireducible] Rat.mul Rat.inv Rat.add Rat.sub

/-- The character list of a string literal (Python strings are modelled as
`List Char`). -/
def str (s : String) : List Char := s.data

/-- Auxiliary recursion for `pySplit`: `acc` holds the current chunk reversed,
mirroring a linear scan of Python's `str.split(sep)`. -/
def pySplitAux (sep : Char) : List Char → List Char → List (List Char)
  | [], acc => [acc.reverse]
  | c :: rest, acc =>
    if c = sep then acc.reverse :: pySplitAux sep rest [] else pySplitAux sep rest (c :: acc)

/-- Python's `s.split(sep)` for a one-character separator: splits at every
occurrence of `sep`, keeping empty chunks. -/
def pySplit (l : List Char) (sep : Char) : List (List Char) := pySplitAux sep l []

/-- Errors raised while building a request in `post_message`:
`valueError` models the `ValueError` Python raises when the tuple unpacking
`host_instance, token = url.split('?')` receives a number of chunks other
than two. -/
inductive PostErr where
  | valueError
deriving DecidableEq

/-- The HTTP request `post_message` hands to `requests.post`.
`slack url payload` models `requests.post(url, data=json.dumps({"text": payload}), ...)`;
`mastodon url token status visibility` models
`requests.post(url=host_instance + "/api/v1/statuses", data={"status": status, "visibility": visibility}, headers={"Authorization": "Bearer " + token})`. -/
inductive Request where
  | slack (url : List Char) (payload : List Char)
  | mastodon (url : List Char) (token : List Char) (status : List Char) (visibility : List Char)
deriving DecidableEq

/-- `post_message(url, message)` from `post.py`: a Slack-prefixed URL gets the
JSON webhook request; any other URL is unpacked as `host_instance, token = url.split('?')`
(raising `ValueError` unless the split yields exactly two chunks) and turned
into the Mastodon status request. -/
def post_message (url message : List Char) : Except PostErr Request :=
  if (str "https://hooks.slack.com").isPrefixOf url then
    .ok (.slack url message)
  else
    match pySplit url '?' with
    | [host_instance, token] =>
      .ok (.mastodon (host_instance ++ str "/api/v1/statuses") token message (str "public"))
    | _ => .error .valueError

instance {ε α : Type} [DecidableEq ε] [DecidableEq α] : DecidableEq (Except ε α) := fun a b =>
  match a, b with
  | .error e, .error f => decidable_of_iff (e = f) (by simp)
  | .error _, .ok _ => isFalse (by simp)
  | .ok _, .error _ => isFalse (by simp)
  | .ok a, .ok b => decidable_of_iff (a = b) (by simp)

/-- A timezone-aware `datetime` in the fixed `Europe/Copenhagen` zone
(all datetimes the script builds or compares carry this zone, so the zone
itself is not modelled). -/
structure DT where
  year : Nat
  month : Nat
  day : Nat
  hour : Nat
  minute : Nat
  second : Nat
deriving DecidableEq

/-- A calendar date, as extracted from the upstream `HourDK` field by
`get_latest_data_date`. -/
structure Date where
  year : Nat
  month : Nat
  day : Nat
deriving DecidableEq

/-- Python `datetime` comparison (same timezone): lexicographic on the
components. -/
def dtLt (a b : DT) : Bool :=
  decide (a.year < b.year ∨ (a.year = b.year ∧
    (a.month < b.month ∨ (a.month = b.month ∧
      (a.day < b.day ∨ (a.day = b.day ∧
        (a.hour < b.hour ∨ (a.hour = b.hour ∧
          (a.minute < b.minute ∨ (a.minute = b.minute ∧
            a.second < b.second))))))))))

/-- `datetime(year, month, day, tzinfo=ZONE)` as built by
`get_latest_data_date`: midnight of the given date. -/
def dtOfDate (d : Date) : DT := ⟨d.year, d.month, d.day, 0, 0, 0⟩

/-- The guard `now.hour < 12 or (now.hour == 12 and now.minute < 30)` of
`update_available`: the local time of day is earlier than 12:30. -/
def beforeCutoff (now : DT) : Bool :=
  decide (now.hour < 12 ∨ (now.hour = 12 ∧ now.minute < 30))

/-- The `(year, month, day)` triples of two datetimes agree, as tested by
`update_available`'s already-ran-today check. -/
def sameCalDay (a b : DT) : Prop :=
  a.year = b.year ∧ a.month = b.month ∧ a.day = b.day

instance (a b : DT) : Decidable (sameCalDay a b) := by
  unfold sameCalDay
  infer_instance

/-- `a`'s calendar date is strictly earlier than `b`'s (lexicographic on
year, month, day). -/
def dateEarlier (a b : DT) : Prop :=
  a.year < b.year ∨ (a.year = b.year ∧
    (a.month < b.month ∨ (a.month = b.month ∧ a.day < b.day)))

instance (a b : DT) : Decidable (dateEarlier a b) := by
  unfold dateEarlier
  infer_instance

/-- One record of the upstream `Elspotprices` dataset, with the fields
`post.py` reads: the hour timestamp and the two price fields, where the
DKK one may be `null` (weekends). -/
structure Record where
  HourDK : List Char
  SpotPriceDKK : Option ℚ
  SpotPriceEUR : ℚ
deriving DecidableEq

/-- A Python runtime value as returned by `parse_price`: the function can
return either a `bool` or a number, because of the walrus binding in
`if r := record["SpotPriceDKK"] is not None`. -/
inductive PyVal where
  | pybool (b : Bool)
  | pynum (q : ℚ)
deriving DecidableEq

/-- `parse_price(record)` from `post.py`, with the EUR→DKK rate the
currency query would return passed explicitly. Python's
`if r := record["SpotPriceDKK"] is not None: return r` binds `r` to the
*comparison result* (a `bool`), so the branch returns `True` whenever the
DKK field is present, and the EUR fallback runs only when it is `null`. -/
def parse_price (record : Record) (dkk_per_eur : ℚ) : PyVal :=
  let r : Bool := record.SpotPriceDKK.isSome
  if r then .pybool r
  else .pynum (record.SpotPriceEUR * dkk_per_eur)

/-- `get_prices(price_area)` from `post.py`, applied to the records the
upstream query returns: it builds `(d["HourDK"], d["SpotPriceDKK"])` pairs
directly from the raw field (which may be `null`), never calling
`parse_price`. -/
def get_prices (records : List Record) : List (List Char × Option ℚ) :=
  records.map fun d => (d.HourDK, d.SpotPriceDKK)

/-- A `PricePoint` as produced by a successful, fully-populated price query:
`(hour timestamp, price)`. -/
abbrev PP : Type := List Char × ℚ

/-- CPython's `min(..., key=lambda s: s[1])` / `max(..., key=...)` loop,
parameterised by the strict "is better" comparison on prices: start from the
first element and replace the current best only when the comparison is
strict, so the first occurrence wins on ties. -/
def selBy (lt : ℚ → ℚ → Prop) [DecidableRel lt] (init : PP) (l : List PP) : PP :=
  l.foldl (fun best x => if lt x.2 best.2 then x else best) init

/-- `min(prices, key=lambda s: s[1])` on the non-empty list `init :: l`. -/
def minBySnd (init : PP) (l : List PP) : PP := selBy (· < ·) init l

/-- `max(prices, key=lambda s: s[1])` on the non-empty list `init :: l`. -/
def maxBySnd (init : PP) (l : List PP) : PP := selBy (fun a b => b < a) init l

/-- `statistics.mean(p[1] for p in prices)`: the exact arithmetic mean. -/
def meanOf (l : List PP) : ℚ := (l.map Prod.snd).sum / l.length

/-- The decimal digit character for `n` (only ever applied to `n < 10`). -/
def digitChar : Nat → Char
  | 0 => '0'
  | 1 => '1'
  | 2 => '2'
  | 3 => '3'
  | 4 => '4'
  | 5 => '5'
  | 6 => '6'
  | 7 => '7'
  | 8 => '8'
  | _ => '9'

/-- Fuel-driven base-10 rendering of a natural number, most significant
digit first. -/
def natCharsAux : Nat → Nat → List Char
  | 0, _ => []
  | fuel + 1, n =>
    if n < 10 then [digitChar n] else natCharsAux fuel (n / 10) ++ [digitChar (n % 10)]

/-- The decimal digits of `n` (e.g. `natChars 100 = str "100"`). -/
def natChars (n : Nat) : List Char := natCharsAux (n + 1) n

/-- Round to the nearest integer, ties to the even integer — the rounding
Python's fixed-point formatting applies. -/
def rhe (q : ℚ) : ℤ :=
  if q - ⌊q⌋ < 1/2 then ⌊q⌋
  else if (1 : ℚ)/2 < q - ⌊q⌋ then ⌊q⌋ + 1
  else if ⌊q⌋ % 2 = 0 then ⌊q⌋ else ⌊q⌋ + 1

/-- Python's `f"{q:.2f}"`: round to hundredths (ties to even), render with
exactly two fractional digits, the sign taken from the value. -/
def formatFixed2 (q : ℚ) : List Char :=
  (if q < 0 then ['-'] else []) ++
    natChars ((rhe (q * 100)).natAbs / 100) ++
    '.' :: digitChar ((rhe (q * 100)).natAbs % 100 / 10) ::
      [digitChar ((rhe (q * 100)).natAbs % 100 % 10)]

/-- The error `format_message` raises on an empty sequence: Python's
`ValueError` from `min([], key=...)`, which the spec's error taxonomy
names `InputError`. -/
inductive FormatErr where
  | inputError
deriving DecidableEq

/-- The `"Lowest price: ..."` line of the summary. -/
def lowLine (t : List Char) (v : ℚ) : List Char :=
  str "Lowest price: " ++ formatFixed2 (v / 1000) ++ str " DKK/kWh (" ++ t ++ str ")"

/-- The `"Highest price: ..."` line of the summary. -/
def highLine (t : List Char) (v : ℚ) : List Char :=
  str "Highest price: " ++ formatFixed2 (v / 1000) ++ str " DKK/kWh (" ++ t ++ str ")"

/-- The `"Average price: ..."` line of the summary. -/
def avgLine (v : ℚ) : List Char :=
  str "Average price: " ++ formatFixed2 (v / 1000) ++ str " DKK/kWh"

/-- `format_message(prices)` from `post.py`: `min`/`max` by price, exact
mean, each value divided by 1000 and rendered with two decimals, joined
with newlines; on the empty list `min` raises (`FormatErr.inputError`). -/
def format_message (prices : List PP) : Except FormatErr (List Char) :=
  match prices with
  | [] => .error .inputError
  | p :: ps =>
    .ok (lowLine (minBySnd p ps).1 (minBySnd p ps).2 ++
      '\n' :: (highLine (maxBySnd p ps).1 (maxBySnd p ps).2 ++
        '\n' :: avgLine (meanOf (p :: ps))))

/-- The uncaught exceptions of a run: `storage` is the spec's `StorageError`
(unreadable state file in `get_last_update`), `upstream` its `UpstreamError`
(a failing price or latest-date query), `input` its `InputError` (empty price
list reaching `format_message`). Delivery failures are caught inside
`update` and never appear here. -/
inductive RunErr where
  | storage
  | upstream
  | input
deriving DecidableEq

/-- The external world of one invocation: the state file's content and
readability, the current local time, and the responses of the
latest-date query, the per-zone price query, and the notification
endpoints (`send req = true` means `requests.post` succeeds). -/
structure Env where
  last : Option DT
  readFails : Bool
  now : DT
  latest : Except Unit Date
  prices : List Char → Except Unit (List PP)
  send : Request → Bool

/-- `get_last_update()` from `post.py`: a missing file yields `none`, an
unreadable/corrupt file raises `StorageError`. -/
def get_last_update (env : Env) : Except RunErr (Option DT) :=
  if env.readFails then .error .storage else .ok env.last

/-- `update_available()` from `post.py`: read the last update (absent →
`true`); same calendar day as now → `false`; before 12:30 local time →
`false`; otherwise fetch the latest data date and compare
`latest_data_date > now`. Errors of the state read or the date query
propagate. -/
def update_available (env : Env) : Except RunErr Bool :=
  match get_last_update env with
  | .error e => .error e
  | .ok none => .ok true
  | .ok (some lu) =>
    if sameCalDay lu env.now then .ok false
    else if beforeCutoff env.now then .ok false
    else
      match env.latest with
      | .error _ => .error .upstream
      | .ok d => .ok (dtLt env.now (dtOfDate d))

/-- Modelled from the spec (§4.3, source: `update_available`): the decision
as a pure function of `(last_update, now, latest_available_date)` — absent
state → update; already ran today → no update; before the 12:30 cutoff →
no update; otherwise update exactly when the upstream's latest date lies
strictly beyond now. -/
def update_available_spec (last : Option DT) (now : DT) (latest : Date) : Bool :=
  match last with
  | none => true
  | some lu =>
    if sameCalDay lu now then false
    else if beforeCutoff now then false
    else dtLt now (dtOfDate latest)

/-- One `post_message` attempt inside `update`'s per-destination loop:
`false` when the attempt raised (a `ValueError` while unpacking the URL, or
a failing POST), `true` when it went through — either way the exception is
caught by the surrounding `try`/`except`. -/
def attemptPost (env : Env) (message url : List Char) : Bool :=
  match post_message url message with
  | .error _ => false
  | .ok req => env.send req

/-- The observable trace of a run: the uncaught exception if any, the zones
whose prices were fetched, the formatted per-zone message parts, the
destinations to which delivery was attempted (with each attempt's outcome),
and the content of the state file afterwards. -/
structure Outcome where
  err : Option RunErr
  fetched : List (List Char)
  parts : List (List Char)
  posts : List (List Char × Bool)
  finalState : Option DT
deriving DecidableEq

/-- `update(webhook_urls)` from `post.py`: for each of the zones `"DK1"`,
`"DK2"` in order, fetch prices and format a message part (an error aborts
the run, leaving the state file untouched); then join the parts, attempt
`post_message` for every destination with each failure caught, and finally
`set_last_update(datetime.now(ZONE))`. -/
def update (env : Env) (urls : List (List Char)) : Outcome :=
  match env.prices (str "DK1") with
  | .error _ => ⟨some .upstream, [str "DK1"], [], [], env.last⟩
  | .ok ps1 =>
    match format_message ps1 with
    | .error _ => ⟨some .input, [str "DK1"], [], [], env.last⟩
    | .ok m1 =>
      match env.prices (str "DK2") with
      | .error _ => ⟨some .upstream, [str "DK1", str "DK2"], [m1], [], env.last⟩
      | .ok ps2 =>
        match format_message ps2 with
        | .error _ => ⟨some .input, [str "DK1", str "DK2"], [m1], [], env.last⟩
        | .ok m2 =>
          let message :=
            (str "Tomorrow's electricity prices for DK1:" ++ '\n' :: m1) ++
              str "\n\n" ++ (str "Tomorrow's electricity prices for DK2:" ++ '\n' :: m2)
          ⟨none, [str "DK1", str "DK2"], [m1, m2],
            urls.map (fun u => (u, attemptPost env message u)), some env.now⟩

/-- The `__main__` block of `post.py`: run `update` only when
`update_available()` says so; an exception escaping `update_available`
aborts the invocation. -/
def mainRun (env : Env) (urls : List (List Char)) : Outcome :=
  match update_available env with
  | .error e => ⟨some e, [], [], [], env.last⟩
  | .ok false => ⟨none, [], [], [], env.last⟩
  | .ok true => update env urls

/-- A concrete price list used to instantiate the general theorems: the
spec's two-point worked example. -/
def samplePrices : List PP :=
  [(str "2024-01-01T00:00:00", 100000), (str "2024-01-01T01:00:00", 500000)]

/-- A healthy environment whose every delivery fails: state readable
(last run 2024-01-01), now 2024-01-02 13:00, latest upstream date
2024-01-03, both zones answering `samplePrices`, every POST failing. -/
def envA : Env :=
  ⟨some ⟨2024, 1, 1, 13, 0, 0⟩, false, ⟨2024, 1, 2, 13, 0, 0⟩, .ok ⟨2024, 1, 3⟩,
    fun _ => .ok samplePrices, fun _ => false⟩

/-- Like `envA` but with an unreadable state file (`get_last_update`
raises `StorageError`) and succeeding deliveries. -/
def envB : Env :=
  ⟨some ⟨2024, 1, 1, 13, 0, 0⟩, true, ⟨2024, 1, 2, 13, 0, 0⟩, .ok ⟨2024, 1, 3⟩,
    fun _ => .ok samplePrices, fun _ => true⟩

/-- Like `envA` but invoked at 11:00 local time, before the 12:30 cutoff. -/
def envC : Env :=
  ⟨some ⟨2024, 1, 1, 13, 0, 0⟩, false, ⟨2024, 1, 2, 11, 0, 0⟩, .ok ⟨2024, 1, 3⟩,
    fun _ => .ok samplePrices, fun _ => true⟩

/-- A Slack-webhook-shaped destination. -/
def urlSlack : List Char := str "https://hooks.slack.com/services/T000/B000/XXXX"

/-- A token-shaped destination that is malformed: it contains no `?`, so
`post_message` raises a `ValueError` while unpacking it. -/
def urlBad : List Char := str "https://mstdn.example-missing-token"

theorem pySplitAux_nosep (sep : Char) (a acc : List Char) (h : sep ∉ a) :
    pySplitAux sep a acc = [acc.reverse ++ a] := by
  induction a generalizing acc with
  | nil => simp [pySplitAux]
  | cons c rest ih =>
    have hc : c ≠ sep := fun hcs => h (hcs ▸ List.mem_cons_self c rest)
    have hrest : sep ∉ rest := fun hm => h (List.mem_cons_of_mem c hm)
    simp only [pySplitAux, if_neg hc]
    rw [ih (c :: acc) hrest]
    simp

theorem pySplitAux_sep (sep : Char) (a rest acc : List Char) (h : sep ∉ a) :
    pySplitAux sep (a ++ sep :: rest) acc = (acc.reverse ++ a) :: pySplitAux sep rest [] := by
  induction a generalizing acc with
  | nil => simp [pySplitAux]
  | cons c a' ih =>
    have hc : c ≠ sep := fun hcs => h (hcs ▸ List.mem_cons_self c a')
    have ha' : sep ∉ a' := fun hm => h (List.mem_cons_of_mem c hm)
    simp only [List.cons_append, pySplitAux, if_neg hc, List.append_eq]
    rw [ih (c :: acc) ha']
    simp

theorem pySplit_single_sep (sep : Char) (a b : List Char) (ha : sep ∉ a) (hb : sep ∉ b) :
    pySplit (a ++ sep :: b) sep = [a, b] := by
  unfold pySplit
  rw [pySplitAux_sep sep a b [] ha]
  simp [pySplitAux_nosep sep b [] hb]

section Sel

variable (lt : ℚ → ℚ → Prop) [DecidableRel lt]

theorem selBy_nil (init : PP) : selBy lt init [] = init := rfl

theorem selBy_cons (init x : PP) (l : List PP) :
    selBy lt init (x :: l) = selBy lt (if lt x.2 init.2 then x else init) l := rfl

theorem selBy_eq_or_lt
    (hA : ∀ a b, lt a b → ¬ lt b a) (hC : ∀ a b c, lt a b → ¬ lt c b → lt a c)
    (init : PP) (l : List PP) :
    selBy lt init l = init ∨ lt (selBy lt init l).2 init.2 := by
  induction l generalizing init with
  | nil => exact Or.inl rfl
  | cons x l ih =>
    rw [selBy_cons]
    by_cases hx : lt x.2 init.2
    · rw [if_pos hx]
      rcases ih x with h | h
      · refine Or.inr ?_
        rw [h]
        exact hx
      · exact Or.inr (hC _ _ _ h (hA _ _ hx))
    · rw [if_neg hx]
      exact ih init

theorem selBy_mem (init : PP) (l : List PP) : selBy lt init l ∈ init :: l := by
  induction l generalizing init with
  | nil => exact List.mem_cons_self _ _
  | cons x l ih =>
    rw [selBy_cons]
    by_cases hx : lt x.2 init.2
    · rw [if_pos hx]
      rcases List.mem_cons.mp (ih x) with h | h
      · rw [h]
        exact List.mem_cons_of_mem _ (List.mem_cons_self _ _)
      · exact List.mem_cons_of_mem _ (List.mem_cons_of_mem _ h)
    · rw [if_neg hx]
      rcases List.mem_cons.mp (ih init) with h | h
      · rw [h]
        exact List.mem_cons_self _ _
      · exact List.mem_cons_of_mem _ (List.mem_cons_of_mem _ h)

theorem selBy_not_better
    (hA : ∀ a b, lt a b → ¬ lt b a) (hC : ∀ a b c, lt a b → ¬ lt c b → lt a c)
    (init : PP) (l : List PP) :
    ∀ q ∈ init :: l, ¬ lt q.2 (selBy lt init l).2 := by
  induction l generalizing init with
  | nil =>
    intro q hq
    rcases List.mem_cons.mp hq with h | h
    · rw [h, selBy_nil]
      exact fun hlt => hA _ _ hlt hlt
    · cases h
  | cons x l ih =>
    intro q hq
    rw [selBy_cons]
    by_cases hx : lt x.2 init.2
    · rw [if_pos hx]
      rcases List.mem_cons.mp hq with h | h
      · rw [h]
        intro hlt
        have hxs := ih x x (List.mem_cons_self _ _)
        exact hA _ _ hx (hC _ _ _ hlt hxs)
      · exact ih x q h
    · rw [if_neg hx]
      rcases List.mem_cons.mp hq with h | h
      · rw [h]
        exact ih init init (List.mem_cons_self _ _)
      · rcases List.mem_cons.mp h with h' | h'
        · rw [h']
          intro hlt
          have hins := ih init init (List.mem_cons_self _ _)
          exact hx (hC _ _ _ hlt hins)
        · exact ih init q (List.mem_cons_of_mem _ h')

theorem selBy_first
    (hA : ∀ a b, lt a b → ¬ lt b a) (hC : ∀ a b c, lt a b → ¬ lt c b → lt a c)
    (init : PP) (l : List PP) :
    ∃ pre post, init :: l = pre ++ selBy lt init l :: post ∧
      ∀ q ∈ pre, lt (selBy lt init l).2 q.2 := by
  induction l generalizing init with
  | nil => exact ⟨[], [], rfl, by simp⟩
  | cons x l ih =>
    rw [selBy_cons]
    by_cases hx : lt x.2 init.2
    · rw [if_pos hx]
      rcases ih x with ⟨pre', post', heq, hpre⟩
      refine ⟨init :: pre', post', ?_, ?_⟩
      · rw [List.cons_append, ← heq]
      · intro q hq
        rcases List.mem_cons.mp hq with h | h
        · rw [h]
          rcases selBy_eq_or_lt lt hA hC x l with hs | hs
          · rw [hs]
            exact hx
          · exact hC _ _ _ hs (hA _ _ hx)
        · exact hpre q h
    · rw [if_neg hx]
      rcases ih init with ⟨pre', post', heq, hpre⟩
      cases pre' with
      | nil =>
        simp only [List.nil_append] at heq
        injection heq with h1 h2
        refine ⟨[], x :: l, ?_, by simp⟩
        rw [List.nil_append]
        exact congrArg (fun t => t :: x :: l) h1
      | cons h' pre'' =>
        simp only [List.cons_append, List.cons.injEq] at heq
        rw [← heq.1] at hpre
        refine ⟨init :: x :: pre'', post', ?_, ?_⟩
        · exact congrArg (fun t => init :: x :: t) heq.2
        · intro q hq
          rcases List.mem_cons.mp hq with h | h
          · rw [h]
            exact hpre init (List.mem_cons_self _ _)
          · rcases List.mem_cons.mp h with h2 | h2
            · rw [h2]
              have hins : lt (selBy lt init l).2 init.2 :=
                hpre init (List.mem_cons_self _ _)
              exact hC _ _ _ hins hx
            · exact hpre q (List.mem_cons_of_mem _ h2)

end Sel

theorem lt_asymm_q : ∀ a b : ℚ, a < b → ¬ b < a := fun _ _ h => lt_asymm h

theorem lt_chain_q : ∀ a b c : ℚ, a < b → ¬ c < b → a < c :=
  fun _ _ _ h h' => lt_of_lt_of_le h (le_of_not_lt h')

theorem gt_asymm_q : ∀ a b : ℚ, b < a → ¬ a < b := fun _ _ h => lt_asymm h

theorem gt_chain_q : ∀ a b c : ℚ, b < a → ¬ b < c → c < a :=
  fun _ _ _ h h' => lt_of_le_of_lt (le_of_not_lt h') h

theorem minBySnd_le (init : PP) (l : List PP) :
    ∀ q ∈ init :: l, (minBySnd init l).2 ≤ q.2 := by
  intro q hq
  exact le_of_not_lt (selBy_not_better (· < ·) lt_asymm_q lt_chain_q init l q hq)

theorem maxBySnd_ge (init : PP) (l : List PP) :
    ∀ q ∈ init :: l, q.2 ≤ (maxBySnd init l).2 := by
  intro q hq
  exact le_of_not_lt (selBy_not_better (fun a b : ℚ => b < a) gt_asymm_q gt_chain_q init l q hq)

theorem minBySnd_mem (init : PP) (l : List PP) : minBySnd init l ∈ init :: l :=
  selBy_mem (· < ·) init l

theorem maxBySnd_mem (init : PP) (l : List PP) : maxBySnd init l ∈ init :: l :=
  selBy_mem (fun a b : ℚ => b < a) init l

theorem minBySnd_first (init : PP) (l : List PP) :
    ∃ pre post, init :: l = pre ++ minBySnd init l :: post ∧
      ∀ q ∈ pre, (minBySnd init l).2 < q.2 :=
  selBy_first (· < ·) lt_asymm_q lt_chain_q init l

theorem maxBySnd_first (init : PP) (l : List PP) :
    ∃ pre post, init :: l = pre ++ maxBySnd init l :: post ∧
      ∀ q ∈ pre, q.2 < (maxBySnd init l).2 :=
  selBy_first (fun a b : ℚ => b < a) gt_asymm_q gt_chain_q init l

theorem mul_length_le_sum (l : List ℚ) (b : ℚ) (h : ∀ x ∈ l, b ≤ x) :
    b * l.length ≤ l.sum := by
  induction l with
  | nil => simp
  | cons x l ih =>
    have hx := h x (List.mem_cons_self _ _)
    have ih' := ih fun y hy => h y (List.mem_cons_of_mem _ hy)
    simp only [List.length_cons, List.sum_cons]
    push_cast
    linarith

theorem sum_le_mul_length (l : List ℚ) (b : ℚ) (h : ∀ x ∈ l, x ≤ b) :
    l.sum ≤ b * l.length := by
  induction l with
  | nil => simp
  | cons x l ih =>
    have hx := h x (List.mem_cons_self _ _)
    have ih' := ih fun y hy => h y (List.mem_cons_of_mem _ hy)
    simp only [List.length_cons, List.sum_cons]
    push_cast
    linarith

theorem meanOf_between (p : PP) (ps : List PP) :
    (minBySnd p ps).2 ≤ meanOf (p :: ps) ∧ meanOf (p :: ps) ≤ (maxBySnd p ps).2 := by
  have hN : (0 : ℚ) < ((p :: ps).length : ℚ) := by
    simp only [List.length_cons]
    push_cast
    positivity
  have hlen : ((p :: ps).map Prod.snd).length = (p :: ps).length := List.length_map _ _
  constructor
  · rw [meanOf, le_div_iff₀ hN]
    have := mul_length_le_sum ((p :: ps).map Prod.snd) (minBySnd p ps).2 ?_
    · rw [hlen] at this
      exact this
    · intro x hx
      rcases List.mem_map.mp hx with ⟨q, hq, rfl⟩
      exact minBySnd_le p ps q hq
  · rw [meanOf, div_le_iff₀ hN]
    have := sum_le_mul_length ((p :: ps).map Prod.snd) (maxBySnd p ps).2 ?_
    · rw [hlen] at this
      linarith
    · intro x hx
      rcases List.mem_map.mp hx with ⟨q, hq, rfl⟩
      exact maxBySnd_ge p ps q hq

theorem rhe_floor_le (q : ℚ) : ⌊q⌋ ≤ rhe q := by
  unfold rhe
  split_ifs <;> omega

theorem rhe_le_floor_succ (q : ℚ) : rhe q ≤ ⌊q⌋ + 1 := by
  unfold rhe
  split_ifs <;> omega

theorem rhe_mono {x y : ℚ} (h : x ≤ y) : rhe x ≤ rhe y := by
  rcases eq_or_lt_of_le (Int.floor_mono h) with hf | hf
  · have hxy : x - ⌊x⌋ ≤ y - ⌊y⌋ := by
      rw [← hf]
      linarith
    unfold rhe
    rw [← hf]
    split_ifs <;> first | omega | (exfalso; linarith)
  · have h1 := rhe_le_floor_succ x
    have h2 := rhe_floor_le y
    omega

theorem digitChar_ne_newline (n : Nat) : digitChar n ≠ '\n' := by
  unfold digitChar
  split <;> decide

theorem natCharsAux_ne_newline (fuel n : Nat) : '\n' ∉ natCharsAux fuel n := by
  induction fuel generalizing n with
  | zero => simp [natCharsAux]
  | succ f ih =>
    by_cases h : n < 10
    · simp only [natCharsAux, if_pos h, List.mem_singleton]
      exact fun hc => digitChar_ne_newline n hc.symm
    · simp only [natCharsAux, if_neg h, List.mem_append, List.mem_singleton]
      rintro (hc | hc)
      · exact ih _ hc
      · exact digitChar_ne_newline _ hc.symm

theorem formatFixed2_ne_newline (q : ℚ) : '\n' ∉ formatFixed2 q := by
  unfold formatFixed2 natChars
  intro hm
  rcases List.mem_append.mp hm with h1 | h23
  · rcases List.mem_append.mp h1 with h1a | h1b
    · split_ifs at h1a <;> simp at h1a
    · exact natCharsAux_ne_newline _ _ h1b
  · rcases List.mem_cons.mp h23 with h | h
    · exact absurd h (by decide)
    · rcases List.mem_cons.mp h with h' | h'
      · exact digitChar_ne_newline _ h'.symm
      · rcases List.mem_cons.mp h' with h'' | h''
        · exact digitChar_ne_newline _ h''.symm
        · cases h''

theorem isPrefixOf_append_left (p t r : List Char) (h : p.length ≤ t.length) :
    p.isPrefixOf (t ++ r) = p.isPrefixOf t := by
  induction p generalizing t with
  | nil => simp [List.isPrefixOf]
  | cons c p' ih =>
    cases t with
    | nil => simp at h
    | cons d t' =>
      simp only [List.cons_append, List.isPrefixOf, List.append_eq]
      rw [ih t' (Nat.succ_le_succ_iff.mp h)]

theorem pySplit_three (l1 l2 l3 : List Char)
    (h1 : '\n' ∉ l1) (h2 : '\n' ∉ l2) (h3 : '\n' ∉ l3) :
    pySplit (l1 ++ '\n' :: (l2 ++ '\n' :: l3)) '\n' = [l1, l2, l3] := by
  unfold pySplit
  rw [pySplitAux_sep _ _ _ _ h1, pySplitAux_sep _ _ _ _ h2, pySplitAux_nosep _ _ _ h3]
  simp

theorem lowLine_ne_newline (t : List Char) (v : ℚ) (ht : '\n' ∉ t) :
    '\n' ∉ lowLine t v := by
  unfold lowLine
  simp only [List.mem_append]
  rintro ((((hc | hc) | hc) | hc) | hc)
  · revert hc
    decide
  · exact formatFixed2_ne_newline _ hc
  · revert hc
    decide
  · exact ht hc
  · revert hc
    decide

theorem highLine_ne_newline (t : List Char) (v : ℚ) (ht : '\n' ∉ t) :
    '\n' ∉ highLine t v := by
  unfold highLine
  simp only [List.mem_append]
  rintro ((((hc | hc) | hc) | hc) | hc)
  · revert hc
    decide
  · exact formatFixed2_ne_newline _ hc
  · revert hc
    decide
  · exact ht hc
  · revert hc
    decide

theorem avgLine_ne_newline (v : ℚ) : '\n' ∉ avgLine v := by
  unfold avgLine
  simp only [List.mem_append]
  rintro ((hc | hc) | hc)
  · revert hc
    decide
  · exact formatFixed2_ne_newline _ hc
  · revert hc
    decide

theorem isPrefixOf_length_le (p t : List Char) (h : p.isPrefixOf t = true) :
    p.length ≤ t.length := by
  induction p generalizing t with
  | nil => simp
  | cons c p' ih =>
    cases t with
    | nil => simp [List.isPrefixOf] at h
    | cons d t' =>
      simp only [List.isPrefixOf, Bool.and_eq_true] at h
      simpa using Nat.succ_le_succ (ih t' h.2)

theorem isPrefixOf_append_extend (p t r : List Char) (h : p.isPrefixOf t = true) :
    p.isPrefixOf (t ++ r) = true := by
  rw [isPrefixOf_append_left p t r (isPrefixOf_length_le p t h)]
  exact h

theorem marker_of_line (pfx s1 f s2 tt s3 : List Char) (hlen : pfx.length ≤ s1.length) :
    pfx.isPrefixOf ((((s1 ++ f) ++ s2) ++ tt) ++ s3) = pfx.isPrefixOf s1 := by
  have l1 : pfx.length ≤ (s1 ++ f).length := by
    simp only [List.length_append]
    omega
  have l2 : pfx.length ≤ ((s1 ++ f) ++ s2).length := by
    simp only [List.length_append]
    omega
  have l3 : pfx.length ≤ (((s1 ++ f) ++ s2) ++ tt).length := by
    simp only [List.length_append]
    omega
  rw [isPrefixOf_append_left _ _ _ l3, isPrefixOf_append_left _ _ _ l2,
    isPrefixOf_append_left _ _ _ l1, isPrefixOf_append_left _ _ _ hlen]

theorem marker_of_avg (pfx s1 f s3 : List Char) (hlen : pfx.length ≤ s1.length) :
    pfx.isPrefixOf ((s1 ++ f) ++ s3) = pfx.isPrefixOf s1 := by
  have l1 : pfx.length ≤ (s1 ++ f).length := by
    simp only [List.length_append]
    omega
  rw [isPrefixOf_append_left _ _ _ l1, isPrefixOf_append_left _ _ _ hlen]

theorem dateEarlier_not_same (a b : DT) (h : dateEarlier a b) : ¬ sameCalDay a b := by
  intro hs
  unfold dateEarlier at h
  unfold sameCalDay at hs
  omega

/-- C1: the claim says a fetched record resolves to its native DKK value
when present and to EUR × rate otherwise. The code disagrees: because the
walrus in `if r := record["SpotPriceDKK"] is not None` binds the comparison,
`parse_price` returns the boolean `True` (not the DKK value) whenever the
field is present; and `get_prices` never calls `parse_price` at all,
passing the raw (possibly null) DKK field through with no EUR fallback. -/
theorem C1_price_resolution_bug :
    parse_price ⟨str "2024-01-01T00:00:00", some 500, 67⟩ (745/100) = .pybool true ∧
    PyVal.pybool true ≠ PyVal.pynum 500 ∧
    parse_price ⟨str "2024-01-06T00:00:00", none, 67⟩ (745/100) = .pynum (67 * (745/100)) ∧
    get_prices [⟨str "2024-01-06T00:00:00", none, 67⟩] = [(str "2024-01-06T00:00:00", none)] := by
  refine ⟨by decide, by decide, by decide, by decide⟩

/-- C2 counterexample: on a non-webhook URL containing two `?` characters,
`url.split('?')` yields three chunks, the two-target unpacking raises
`ValueError`, and no request of the claimed shape is produced — the claim's
"split on the first `?`" behaviour does not hold for such URLs. -/
theorem C2_counterexample :
    post_message (str "https://mstdn.example?alpha?beta") (str "hi") = .error .valueError ∧
    (str "https://hooks.slack.com").isPrefixOf (str "https://mstdn.example?alpha?beta") = false ∧
    post_message (str "https://mstdn.example?alpha?beta") (str "hi") ≠
      .ok (.mastodon (str "https://mstdn.example/api/v1/statuses") (str "alpha?beta")
        (str "hi") (str "public")) := by
  refine ⟨by decide, by decide, by decide⟩

/-- C2 (amended): for every destination URL that does not match the
chat-webhook host prefix and contains exactly one `?`, `post_message`
splits at that `?` into instance base URL and bearer token and produces
the status POST to `<base>/api/v1/statuses` with the token and the form
body `status`/`visibility=public`; URLs with zero or several `?` instead
raise `ValueError` at send time. -/
theorem C2_token_destination (a b m : List Char)
    (hs : (str "https://hooks.slack.com").isPrefixOf (a ++ '?' :: b) = false)
    (ha : '?' ∉ a) (hb : '?' ∉ b) :
    post_message (a ++ '?' :: b) m =
      .ok (.mastodon (a ++ str "/api/v1/statuses") b m (str "public")) := by
  unfold post_message
  rw [pySplit_single_sep '?' a b ha hb]
  simp [hs]

/-- C2 witness: the amended statement applied to a concrete Mastodon-style
destination. -/
theorem C2_token_destination_witness :
    post_message (str "https://mstdn.example" ++ '?' :: str "secrettoken") (str "hello") =
      .ok (.mastodon (str "https://mstdn.example" ++ str "/api/v1/statuses")
        (str "secrettoken") (str "hello") (str "public")) :=
  C2_token_destination (str "https://mstdn.example") (str "secrettoken") (str "hello")
    (by decide) (by decide) (by decide)

/-- C7: `format_message` picks the lowest and highest entries by price with
the first occurrence winning ties (every element strictly earlier in the
list has a strictly smaller/greater price than none — precisely: all
entries before the selected one are strictly worse), and on the spec's
worked example renders lowest 100.00 at the 00:00 timestamp, highest
500.00 at the 01:00 timestamp and mean 300.00, each value divided by 1000
with two decimals. -/
theorem C7_formatter_selection :
    (∀ (p : PP) (ps : List PP),
        (∃ pre post, p :: ps = pre ++ minBySnd p ps :: post ∧
            ∀ q ∈ pre, (minBySnd p ps).2 < q.2) ∧
        (∀ q ∈ p :: ps, (minBySnd p ps).2 ≤ q.2) ∧
        (∃ pre post, p :: ps = pre ++ maxBySnd p ps :: post ∧
            ∀ q ∈ pre, q.2 < (maxBySnd p ps).2) ∧
        (∀ q ∈ p :: ps, q.2 ≤ (maxBySnd p ps).2)) ∧
    format_message samplePrices =
      .ok (str "Lowest price: 100.00 DKK/kWh (2024-01-01T00:00:00)\nHighest price: 500.00 DKK/kWh (2024-01-01T01:00:00)\nAverage price: 300.00 DKK/kWh") :=
  ⟨fun p ps => ⟨minBySnd_first p ps, minBySnd_le p ps, maxBySnd_first p ps, maxBySnd_ge p ps⟩,
    by decide⟩

/-- C8: `format_message` on the empty sequence fails with the input error
(Python's `ValueError` from `min` on an empty sequence, the spec's
`InputError`) instead of returning a string. -/
theorem C8_empty_sequence : format_message [] = .error .inputError := rfl

/-- C5: given a readable state file and an answering upstream,
`update_available` is exactly the pure function of
`(last_update, now, latest_available_date)` described by the spec: absent
state → true; same local calendar date → false; local time before 12:30 →
false; otherwise true iff the latest available date (at local midnight)
lies strictly after now. -/
theorem C5_decision_pure (env : Env) (d : Date)
    (hs : env.readFails = false) (hl : env.latest = .ok d) :
    update_available env = .ok (update_available_spec env.last env.now d) := by
  unfold update_available get_last_update update_available_spec
  simp only [hs, Bool.false_eq_true, if_false]
  cases env.last with
  | none => rfl
  | some lu =>
    rw [hl]
    by_cases hsc : sameCalDay lu env.now
    · simp [hsc]
    · by_cases hbc : beforeCutoff env.now = true
      · simp [hsc, hbc]
      · simp [hsc, hbc]

/-- C5 witness: the pure-function description evaluated in the concrete
environment `envA`. -/
theorem C5_decision_pure_witness :
    update_available envA =
      .ok (update_available_spec envA.last envA.now ⟨2024, 1, 3⟩) :=
  C5_decision_pure envA ⟨2024, 1, 3⟩ rfl rfl

/-- C9: with a readable state file and a last update on a strictly earlier
calendar day, `update_available` returns false whenever the local time of
day is before 12:30; from 12:30 on, the result is instead exactly the
data-availability comparison `latest_data_date > now` (so the cutoff branch
no longer forces false). -/
theorem C9_cutoff_gate (env : Env) (lu : DT)
    (h1 : env.readFails = false) (h2 : env.last = some lu)
    (h3 : dateEarlier lu env.now) :
    (beforeCutoff env.now = true → update_available env = .ok false) ∧
    (beforeCutoff env.now = false →
      ∀ d, env.latest = .ok d →
        update_available env = .ok (dtLt env.now (dtOfDate d))) := by
  have hns : ¬ sameCalDay lu env.now := dateEarlier_not_same _ _ h3
  have base : update_available env =
      (if sameCalDay lu env.now then .ok false
       else if beforeCutoff env.now then .ok false
       else match env.latest with
         | .error _ => .error .upstream
         | .ok d => .ok (dtLt env.now (dtOfDate d))) := by
    unfold update_available get_last_update
    simp only [h1, Bool.false_eq_true, if_false, h2]
  constructor
  · intro hb
    rw [base, if_neg hns, if_pos hb]
  · intro hb d hd
    rw [base, if_neg hns, hd]
    simp [hb]

/-- C9 witness: before the cutoff (11:00, `envC`) the decision is false;
at 13:00 (`envA`) it equals the availability check, which is true for a
latest date of 2024-01-03 against now 2024-01-02 13:00. -/
theorem C9_cutoff_gate_witness :
    update_available envC = .ok false ∧
    update_available envA = .ok (dtLt envA.now (dtOfDate ⟨2024, 1, 3⟩)) ∧
    dtLt envA.now (dtOfDate ⟨2024, 1, 3⟩) = true :=
  ⟨(C9_cutoff_gate envC ⟨2024, 1, 1, 13, 0, 0⟩ rfl rfl (by decide)).1 (by decide),
    (C9_cutoff_gate envA ⟨2024, 1, 1, 13, 0, 0⟩ rfl rfl (by decide)).2 (by decide)
      ⟨2024, 1, 3⟩ rfl,
    by decide⟩

theorem map_fst_pairs {α β : Type} (f : α → β) (l : List α) :
    (l.map fun u => (u, f u)).map Prod.fst = l := by
  induction l with
  | nil => rfl
  | cons x xs ih => simp only [List.map_cons, ih]

/-- C3: once both zones' prices are fetched and formatted, delivery is
attempted at every configured destination no matter how the individual
attempts turn out (`env.send` and the per-URL parsing are unconstrained, so
any one failure is caught and cannot suppress the others), the run raises
nothing, and the state store is then set to the current timestamp — even
when every delivery failed. -/
theorem C3_delivery_isolation (env : Env) (urls : List (List Char))
    (ps1 m1 ps2 m2)
    (h1 : env.prices (str "DK1") = .ok ps1) (h2 : format_message ps1 = .ok m1)
    (h3 : env.prices (str "DK2") = .ok ps2) (h4 : format_message ps2 = .ok m2) :
    (update env urls).posts.map Prod.fst = urls ∧
    (update env urls).finalState = some env.now ∧
    (update env urls).err = none := by
  unfold update
  simp only [h1, h2, h3, h4]
  refine ⟨?_, by simp, by simp⟩
  exact map_fst_pairs _ urls

/-- C3 witness: in `envA` every send fails, and the second destination is
a malformed token-shaped URL whose parsing raises — both attempts are still
made (and recorded as failures), and the state advances to `envA.now`. -/
theorem C3_delivery_isolation_witness :
    (update envA [urlSlack, urlBad]).posts.map Prod.fst = [urlSlack, urlBad] ∧
    (update envA [urlSlack, urlBad]).finalState = some envA.now ∧
    (update envA [urlSlack, urlBad]).err = none :=
  C3_delivery_isolation envA [urlSlack, urlBad] samplePrices _ samplePrices _
    rfl rfl rfl rfl

/-- C4: whenever a run ends with an uncaught `StorageError` or
`UpstreamError` (which in the model can only arise while reading the state,
querying the latest available date, or fetching zone prices), no delivery
was attempted and the state file is left exactly as it was. -/
theorem C4_fatal_fetch_errors (env : Env) (urls : List (List Char)) (e : RunErr)
    (he : (mainRun env urls).err = some e)
    (_hse : e = RunErr.storage ∨ e = RunErr.upstream) :
    (mainRun env urls).posts = [] ∧ (mainRun env urls).finalState = env.last := by
  unfold mainRun at he ⊢
  cases hui : update_available env with
  | error e' =>
    simp [hui]
  | ok b =>
    cases b with
    | false =>
      simp [hui]
    | true =>
      simp only [hui] at he ⊢
      unfold update at he ⊢
      cases hp1 : env.prices (str "DK1") with
      | error _ =>
        simp [hp1]
      | ok ps1 =>
        simp only [hp1] at he ⊢
        cases hf1 : format_message ps1 with
        | error _ =>
          simp [hf1]
        | ok m1 =>
          simp only [hf1] at he ⊢
          cases hp2 : env.prices (str "DK2") with
          | error _ =>
            simp [hp2]
          | ok ps2 =>
            simp only [hp2] at he ⊢
            cases hf2 : format_message ps2 with
            | error _ =>
              simp [hf2]
            | ok m2 =>
              simp only [hf2] at he
              simp at he

/-- C4 witness: with an unreadable state file (`envB`) and a destination
configured, the run aborts with the storage error, attempts no delivery,
and leaves the state file content unchanged. -/
theorem C4_fatal_fetch_errors_witness :
    (mainRun envB [urlSlack]).posts = [] ∧
    (mainRun envB [urlSlack]).finalState = envB.last :=
  C4_fatal_fetch_errors envB [urlSlack] RunErr.storage rfl (Or.inl rfl)

/-- C10: invoking `update` with an empty destination list still fetches
and formats both zones (in order DK1, DK2), performs no delivery attempt,
and still advances the stored state to the current timestamp — after which
the decision function refuses to run again on the same calendar day. -/
theorem C10_zero_destinations (env : Env)
    (ps1 m1 ps2 m2)
    (h1 : env.prices (str "DK1") = .ok ps1) (h2 : format_message ps1 = .ok m1)
    (h3 : env.prices (str "DK2") = .ok ps2) (h4 : format_message ps2 = .ok m2) :
    (update env []).fetched = [str "DK1", str "DK2"] ∧
    (update env []).parts = [m1, m2] ∧
    (update env []).posts = [] ∧
    (update env []).finalState = some env.now ∧
    (∀ d : Date, update_available_spec (some env.now) env.now d = false) := by
  unfold update
  simp only [h1, h2, h3, h4]
  refine ⟨by simp, by simp, by simp, by simp, ?_⟩
  intro d
  simp [update_available_spec, sameCalDay]

/-- C10 witness: the zero-destination run in `envA`. -/
theorem C10_zero_destinations_witness :
    (update envA []).fetched = [str "DK1", str "DK2"] ∧
    (update envA []).posts = [] ∧
    (update envA []).finalState = some envA.now :=
  ⟨(C10_zero_destinations envA samplePrices _ samplePrices _ rfl rfl rfl rfl).1,
    (C10_zero_destinations envA samplePrices _ samplePrices _ rfl rfl rfl rfl).2.2.1,
    (C10_zero_destinations envA samplePrices _ samplePrices _ rfl rfl rfl rfl).2.2.2.1⟩

/-- C6: on any non-empty price list whose hour stamps contain no newline,
`format_message` yields a message with exactly one lowest-price line, one
highest-price line and one mean line, and the reported (rounded-to-
hundredths) mean lies between the reported lowest and highest values,
inclusive. -/
theorem C6_summary_shape (p : PP) (ps : List PP)
    (ht : ∀ q ∈ p :: ps, '\n' ∉ q.1) :
    ∃ msg, format_message (p :: ps) = .ok msg ∧
      (pySplit msg '\n').countP (fun l => (str "Lowest price:").isPrefixOf l) = 1 ∧
      (pySplit msg '\n').countP (fun l => (str "Highest price:").isPrefixOf l) = 1 ∧
      (pySplit msg '\n').countP (fun l => (str "Average price:").isPrefixOf l) = 1 ∧
      rhe ((minBySnd p ps).2 / 1000 * 100) ≤ rhe (meanOf (p :: ps) / 1000 * 100) ∧
      rhe (meanOf (p :: ps) / 1000 * 100) ≤ rhe ((maxBySnd p ps).2 / 1000 * 100) := by
  have hlo : '\n' ∉ (minBySnd p ps).1 := ht _ (minBySnd_mem p ps)
  have hhi : '\n' ∉ (maxBySnd p ps).1 := ht _ (maxBySnd_mem p ps)
  have hsplit := pySplit_three
    (lowLine (minBySnd p ps).1 (minBySnd p ps).2)
    (highLine (maxBySnd p ps).1 (maxBySnd p ps).2)
    (avgLine (meanOf (p :: ps)))
    (lowLine_ne_newline _ _ hlo) (highLine_ne_newline _ _ hhi) (avgLine_ne_newline _)
  have eLL : (str "Lowest price:").isPrefixOf
      (lowLine (minBySnd p ps).1 (minBySnd p ps).2) = true := by
    unfold lowLine
    rw [marker_of_line]
    · decide
    · decide
  have eLH : (str "Lowest price:").isPrefixOf
      (highLine (maxBySnd p ps).1 (maxBySnd p ps).2) = false := by
    unfold highLine
    rw [marker_of_line]
    · decide
    · decide
  have eLA : (str "Lowest price:").isPrefixOf (avgLine (meanOf (p :: ps))) = false := by
    unfold avgLine
    rw [marker_of_avg]
    · decide
    · decide
  have eHL : (str "Highest price:").isPrefixOf
      (lowLine (minBySnd p ps).1 (minBySnd p ps).2) = false := by
    unfold lowLine
    rw [marker_of_line]
    · decide
    · decide
  have eHH : (str "Highest price:").isPrefixOf
      (highLine (maxBySnd p ps).1 (maxBySnd p ps).2) = true := by
    unfold highLine
    rw [marker_of_line]
    · decide
    · decide
  have eHA : (str "Highest price:").isPrefixOf (avgLine (meanOf (p :: ps))) = false := by
    unfold avgLine
    rw [marker_of_avg]
    · decide
    · decide
  have eAL : (str "Average price:").isPrefixOf
      (lowLine (minBySnd p ps).1 (minBySnd p ps).2) = false := by
    unfold lowLine
    rw [marker_of_line]
    · decide
    · decide
  have eAH : (str "Average price:").isPrefixOf
      (highLine (maxBySnd p ps).1 (maxBySnd p ps).2) = false := by
    unfold highLine
    rw [marker_of_line]
    · decide
    · decide
  have eAA : (str "Average price:").isPrefixOf (avgLine (meanOf (p :: ps))) = true := by
    unfold avgLine
    rw [marker_of_avg]
    · decide
    · decide
  have hm := meanOf_between p ps
  refine ⟨_, rfl, ?_, ?_, ?_, ?_, ?_⟩
  · rw [hsplit]
    simp [List.countP_cons, List.countP_nil, eLL, eLH, eLA]
  · rw [hsplit]
    simp [List.countP_cons, List.countP_nil, eHL, eHH, eHA]
  · rw [hsplit]
    simp [List.countP_cons, List.countP_nil, eAL, eAH, eAA]
  · apply rhe_mono
    have h1 := hm.1
    linarith
  · apply rhe_mono
    have h2 := hm.2
    linarith

/-- C6 witness: the summary-shape property instantiated at the spec's
two-point price list. -/
theorem C6_summary_shape_witness :
    ∃ msg,
      format_message
          ((str "2024-01-01T00:00:00", 100000) :: [(str "2024-01-01T01:00:00", 500000)]) =
        .ok msg ∧
      (pySplit msg '\n').countP (fun l => (str "Lowest price:").isPrefixOf l) = 1 ∧
      (pySplit msg '\n').countP (fun l => (str "Highest price:").isPrefixOf l) = 1 ∧
      (pySplit msg '\n').countP (fun l => (str "Average price:").isPrefixOf l) = 1 ∧
      rhe ((minBySnd (str "2024-01-01T00:00:00", 100000)
            [(str "2024-01-01T01:00:00", 500000)]).2 / 1000 * 100) ≤
        rhe (meanOf ((str "2024-01-01T00:00:00", 100000) ::
            [(str "2024-01-01T01:00:00", 500000)]) / 1000 * 100) ∧
      rhe (meanOf ((str "2024-01-01T00:00:00", 100000) ::
            [(str "2024-01-01T01:00:00", 500000)]) / 1000 * 100) ≤
        rhe ((maxBySnd (str "2024-01-01T00:00:00", 100000)
            [(str "2024-01-01T01:00:00", 500000)]).2 / 1000 * 100) :=
  C6_summary_shape (str "2024-01-01T00:00:00", 100000)
    [(str "2024-01-01T01:00:00", 500000)] (by decide)
